import Mathlib

/-!
Verification of the modem-power driver core (power sequencing, AT command
engine, line framing, event queue) against its natural-language design
document.  The driver is embedded shallowly: the device's flag word and
buffers become a `Mpwr` structure, interrupt-context and worker-context
C functions become pure state transformers that additionally return the
trace of hardware actions (GPIO, regulator, serial, sysfs notifications)
they would perform, and bounded waits are modelled by the sequence of
events (complete lines, GPIO observations) that arrive before the bound.
-/

namespace ModemPower

/-- Linux errno values used by the driver (returned negated). -/
def EBUSY : Nat := 16
def EINVAL : Nat := 22
def ETIMEDOUT : Nat := 110
def ENODEV : Nat := 19
def E2BIG : Nat := 7

/-- Capacity of `rcvbuf`, `msg` and the event kfifo (all 4096 bytes). -/
def BUFSZ : Nat := 4096

/-- GPIO lines of the eg25 variant (`mpwr_eg25_gpios`). -/
inductive Gpio
  | enable
  | reset
  | pwrkey
  | sleepPin
  | dtr
  | hostReady
  | status
  | wakeup
  deriving Repr, DecidableEq

/-- Sysfs attributes the driver notifies on. -/
inductive Attr
  | powered
  | isBusy
  | killswitched
  deriving Repr, DecidableEq

/-- Hardware / kernel actions performed by the driver, recorded as a trace. -/
inductive HwEv
  | sysfsNotify (a : Attr)
  | wakeUpWaiters
  | gpioDirOut (g : Gpio) (level : Bool)
  | gpioDirIn (g : Gpio)
  | gpioSet (g : Gpio) (level : Bool)
  | regulatorEnable
  | regulatorDisable
  | serdevOpen
  | serdevClose
  | sleepMs (ms : Nat)
  | serdevSend (line : List Char)
  | warnMsg
  deriving Repr, DecidableEq

/-- The device state: the `mpwr_dev` flag word (`flags[1]`) decomposed into
named booleans, plus the line-framer buffer, the command-engine response
buffer (kept as the list of accumulated lines together with the byte count
`msg_len`, where each line occupies `length + 1` bytes as in the C buffer),
and the event kfifo (a byte FIFO). -/
structure Mpwr where
  powered : Bool
  inprogress : Bool
  killswitched : Bool
  gotWakeup : Bool
  receivingMsg : Bool
  gotPdn : Bool
  dumbPowerup : Bool
  fastbootPowerup : Bool
  devOpen : Bool
  overflow : Bool
  rcvbuf : List Char
  msgLines : List (List Char)
  msgLen : Nat
  msgOk : Bool
  kfifo : List Char
  lastRequest : Nat
  deriving Repr, DecidableEq

/-- A device state with everything cleared, used to build concrete states. -/
def initState : Mpwr :=
  { powered := false, inprogress := false, killswitched := false,
    gotWakeup := false, receivingMsg := false, gotPdn := false,
    dumbPowerup := false, fastbootPowerup := false, devOpen := false,
    overflow := false, rcvbuf := [], msgLines := [], msgLen := 0,
    msgOk := false, kfifo := [], lastRequest := 0 }

/-- The line terminator scanned for by `mpwr_serdev_receive_buf`. -/
def crlf : List Char := ['\r', '\n']

/-- The literal terminal line ending a transaction with success. -/
def okLine : List Char := ['O', 'K']

/-- The literal terminal line ending a transaction with failure. -/
def errorLine : List Char := ['E', 'R', 'R', 'O', 'R']

/-- The powered-down URC consumed by `mpwr_eg25_receive_msg`. -/
def pdnLine : List Char := ['P', 'O', 'W', 'E', 'R', 'E', 'D', ' ', 'D', 'O', 'W', 'N']

/-- The ready URC consumed by `mpwr_eg25_receive_msg`. -/
def rdyLine : List Char := ['R', 'D', 'Y']

/-- The overflow marker copied to user space by `mpwr_read` (9 bytes). -/
def overflowMarker : List Char := ['O', 'V', 'E', 'R', 'F', 'L', 'O', 'W', '\n']

/-- `kfifo_avail` for the 4096-byte event FIFO. -/
def kfifo_avail (q : List Char) : Nat := BUFSZ - q.length

/-- `kfifo_in`: append at most the available room. -/
def kfifo_in (q : List Char) (data : List Char) : List Char :=
  q ++ data.take (BUFSZ - q.length)

/-- `mpwr_eg25_receive_msg`: the eg25 variant's handler, invoked on every
complete line.  `POWERED DOWN` sets the got-pdn flag and wakes waiters,
`RDY` is ignored, anything else is queued (with an appended line feed) on
the event FIFO only while the character device is open; if the line plus
line feed does not fit, it is dropped and the one-shot overflow bit is
latched (`test_and_set_bit`, waking the reader only on the transition). -/
def mpwr_eg25_receive_msg (st : Mpwr) (msg : List Char) : Mpwr × List HwEv :=
  if msg = pdnLine then
    ({st with gotPdn := true}, [.wakeUpWaiters])
  else if msg = rdyLine then
    (st, [])
  else if st.devOpen = false then
    (st, [])
  else if msg.length + 1 > kfifo_avail st.kfifo then
    if st.overflow then (st, [])
    else ({st with overflow := true}, [.wakeUpWaiters])
  else
    ({st with kfifo := kfifo_in (kfifo_in st.kfifo msg) ['\n']}, [.wakeUpWaiters])

/-- `mpwr_serdev_receive_msg`: every complete line is first handed to the
variant handler, then — only while a command transaction is outstanding —
classified by the command engine: literal `OK` ends the transaction with
success, literal `ERROR` with failure, and any other line is appended to
the 4096-byte response buffer (`len + 1` bytes per line) or dropped with a
warning when it would not fit. -/
def mpwr_serdev_receive_msg (st : Mpwr) (msg : List Char) : Mpwr × List HwEv :=
  let r := mpwr_eg25_receive_msg st msg
  let st1 := r.1
  if st1.receivingMsg = false then
    r
  else if msg = okLine then
    ({st1 with receivingMsg := false, msgOk := true}, r.2 ++ [.wakeUpWaiters])
  else if msg = errorLine then
    ({st1 with receivingMsg := false, msgOk := false}, r.2 ++ [.wakeUpWaiters])
  else if st1.msgLen + msg.length + 1 > BUFSZ then
    (st1, r.2 ++ [.warnMsg])
  else
    ({st1 with msgLines := st1.msgLines ++ [msg],
               msgLen := st1.msgLen + msg.length + 1}, r.2)

/-- Deliver a sequence of complete lines one by one. -/
def mpwr_receive_lines (st : Mpwr) : List (List Char) → Mpwr × List HwEv
  | [] => (st, [])
  | m :: ms =>
    let r := mpwr_serdev_receive_msg st m
    let r2 := mpwr_receive_lines r.1 ms
    (r2.1, r.2 ++ r2.2)

/-!  Line framer (`mpwr_serdev_receive_buf`). -/

/-- `strnstr(rcvbuf, "\r\n", fill)`: index of the first occurrence of the
line terminator, if any. -/
def findCRLF : List Char → Option Nat
  | [] => none
  | [_] => none
  | a :: b :: rest =>
    if a = '\r' ∧ b = '\n' then some 0
    else (findCRLF (b :: rest)).map (· + 1)

theorem findCRLF_some_bound {l : List Char} {p : Nat} (h : findCRLF l = some p) :
    p + 2 ≤ l.length := by
  induction l generalizing p with
  | nil => simp [findCRLF] at h
  | cons a tl ih =>
    match tl, h with
    | [], h => simp [findCRLF] at h
    | b :: rest, h =>
      rw [findCRLF] at h
      split at h
      · simp only [Option.some.injEq] at h
        subst h
        simp only [List.length_cons]
        omega
      · simp only [Option.map_eq_some'] at h
        obtain ⟨q, hq, rfl⟩ := h
        have := ih hq
        simp only [List.length_cons] at this ⊢
        omega

/-- The byte-append step of `mpwr_serdev_receive_buf`: bytes beyond the
remaining capacity of the 4096-byte receive buffer are dropped. -/
def mpwr_rcvbuf_append (rcvbuf input : List Char) : List Char :=
  let avail := BUFSZ - rcvbuf.length
  let cnt := min input.length avail
  if 0 < avail then rcvbuf ++ input.take cnt else rcvbuf

/-- The scan loop of `mpwr_serdev_receive_buf`: repeatedly find the first
`"\r\n"`, emit the (non-empty) line before it, and drop line and
terminator from the buffer; when no terminator is left, discard the whole
buffer and report overflow if it is completely full.  Returns the emitted
lines in order, the remaining buffer, and the overflow diagnostic. -/
def receive_buf_loop (buf : List Char) : List (List Char) × List Char × Bool :=
  match h : findCRLF buf with
  | some p =>
    let r := receive_buf_loop (buf.drop (p + 2))
    (if p = 0 then r.1 else buf.take p :: r.1, r.2)
  | none =>
    if buf.length = BUFSZ then ([], [], true) else ([], buf, false)
termination_by buf.length
decreasing_by
  have hb := findCRLF_some_bound h
  simp only [List.length_drop]
  omega

/-- Specification-level splitter: the list of all `"\r\n"`-terminated
chunks (empty chunks included) in order, and the unterminated tail. -/
def splitTerminated (buf : List Char) : List (List Char) × List Char :=
  match h : findCRLF buf with
  | some p =>
    let r := splitTerminated (buf.drop (p + 2))
    (buf.take p :: r.1, r.2)
  | none => ([], buf)
termination_by buf.length
decreasing_by
  have hb := findCRLF_some_bound h
  simp only [List.length_drop]
  omega

/-- Re-attach the terminators: the inverse direction of `splitTerminated`. -/
def joinTerminated (segs : List (List Char)) : List Char :=
  segs.foldr (fun s acc => s ++ crlf ++ acc) []

/-- `mpwr_serdev_receive_buf`: append the incoming bytes (truncating at
capacity), run the scan loop, deliver each emitted line, and keep the
remaining bytes.  Returns the new state, the hardware-event trace and the
lines that were delivered to `mpwr_serdev_receive_msg`. -/
def mpwr_serdev_receive_buf (st : Mpwr) (input : List Char) :
    Mpwr × List HwEv × List (List Char) :=
  let buf := mpwr_rcvbuf_append st.rcvbuf input
  let r := receive_buf_loop buf
  let d := mpwr_receive_lines {st with rcvbuf := r.2.1} r.1
  (d.1, d.2 ++ (if r.2.2 then [.warnMsg] else []), r.1)

theorem findCRLF_recon {l : List Char} {p : Nat} (h : findCRLF l = some p) :
    l.take p ++ '\r' :: '\n' :: l.drop (p + 2) = l := by
  induction l generalizing p with
  | nil => simp [findCRLF] at h
  | cons a tl ih =>
    match tl, h with
    | [], h => simp [findCRLF] at h
    | b :: rest, h =>
      rw [findCRLF] at h
      split at h
      · next hab =>
        simp only [Option.some.injEq] at h
        subst h
        obtain ⟨ha, hb⟩ := hab
        simp [ha, hb]
      · simp only [Option.map_eq_some'] at h
        obtain ⟨q, hq, rfl⟩ := h
        have := ih hq
        simpa using this

theorem findCRLF_take_none {l : List Char} {p : Nat} (h : findCRLF l = some p) :
    findCRLF (l.take p) = none := by
  induction l generalizing p with
  | nil => simp [findCRLF] at h
  | cons a tl ih =>
    match tl, h with
    | [], h => simp [findCRLF] at h
    | b :: rest, h =>
      rw [findCRLF] at h
      split at h
      · simp only [Option.some.injEq] at h
        subst h
        simp [findCRLF]
      · next hab =>
        simp only [Option.map_eq_some'] at h
        obtain ⟨q, hq, rfl⟩ := h
        have hq' := ih hq
        match q with
        | 0 => simp [findCRLF]
        | Nat.succ q' =>
          simp only [List.take_succ_cons]
          rw [findCRLF]
          rw [if_neg hab]
          rw [List.take_succ_cons] at hq'
          rw [hq']
          rfl


theorem receive_buf_loop_some {buf : List Char} {p : Nat} (h : findCRLF buf = some p) :
    receive_buf_loop buf =
      (if p = 0 then (receive_buf_loop (buf.drop (p + 2))).1
       else buf.take p :: (receive_buf_loop (buf.drop (p + 2))).1,
       (receive_buf_loop (buf.drop (p + 2))).2) := by
  rw [receive_buf_loop]
  split
  · next p' heq =>
    rw [h] at heq
    injection heq with heq
    subst heq
    rfl
  · next heq =>
    rw [h] at heq
    cases heq

theorem receive_buf_loop_none {buf : List Char} (h : findCRLF buf = none) :
    receive_buf_loop buf =
      if buf.length = BUFSZ then ([], [], true) else ([], buf, false) := by
  rw [receive_buf_loop]
  split
  · next p' heq =>
    rw [h] at heq
    cases heq
  · rfl

theorem splitTerminated_some {buf : List Char} {p : Nat} (h : findCRLF buf = some p) :
    splitTerminated buf =
      (buf.take p :: (splitTerminated (buf.drop (p + 2))).1,
       (splitTerminated (buf.drop (p + 2))).2) := by
  rw [splitTerminated]
  split
  · next p' heq =>
    rw [h] at heq
    injection heq with heq
    subst heq
    rfl
  · next heq =>
    rw [h] at heq
    cases heq

theorem splitTerminated_none {buf : List Char} (h : findCRLF buf = none) :
    splitTerminated buf = ([], buf) := by
  rw [splitTerminated]
  split
  · next p' heq =>
    rw [h] at heq
    cases heq
  · rfl


theorem receive_buf_loop_lines (buf : List Char) :
    (receive_buf_loop buf).1 = (splitTerminated buf).1.filter (fun l => !l.isEmpty) := by
  induction buf using receive_buf_loop.induct with
  | case1 buf p h ih =>
    rw [receive_buf_loop_some h, splitTerminated_some h]
    match p with
    | 0 => simpa using ih
    | Nat.succ p' =>
      simp only [List.filter_cons]
      have hne : (buf.take (Nat.succ p')).isEmpty = false := by
        have hb := findCRLF_some_bound h
        cases buf with
        | nil => simp at hb
        | cons x xs => simp [List.isEmpty]
      simp [hne, ih]
  | case2 buf h hfull =>
    rw [receive_buf_loop_none h, splitTerminated_none h]
    simp [hfull]
  | case3 buf h hnot =>
    rw [receive_buf_loop_none h, splitTerminated_none h]
    simp [hnot]

theorem splitTerminated_join (buf : List Char) :
    joinTerminated (splitTerminated buf).1 ++ (splitTerminated buf).2 = buf := by
  induction buf using splitTerminated.induct with
  | case1 buf p h ih =>
    rw [splitTerminated_some h]
    simp only [joinTerminated, List.foldr_cons]
    have hr := findCRLF_recon h
    calc (buf.take p ++ crlf ++ joinTerminated (splitTerminated (buf.drop (p + 2))).1)
          ++ (splitTerminated (buf.drop (p + 2))).2
        = buf.take p ++ crlf ++ (joinTerminated (splitTerminated (buf.drop (p + 2))).1
            ++ (splitTerminated (buf.drop (p + 2))).2) := by
          simp [List.append_assoc]
      _ = buf.take p ++ crlf ++ buf.drop (p + 2) := by rw [ih]
      _ = buf := by simpa [crlf] using hr
  | case2 buf h =>
    rw [splitTerminated_none h]
    simp [joinTerminated]

theorem splitTerminated_chunks_no_crlf (buf : List Char) :
    ∀ s ∈ (splitTerminated buf).1, findCRLF s = none := by
  induction buf using splitTerminated.induct with
  | case1 buf p h ih =>
    rw [splitTerminated_some h]
    intro s hs
    rcases List.mem_cons.mp hs with rfl | hs
    · exact findCRLF_take_none h
    · exact ih s hs
  | case2 buf h =>
    rw [splitTerminated_none h]
    simp

theorem splitTerminated_tail_no_crlf (buf : List Char) :
    findCRLF (splitTerminated buf).2 = none := by
  induction buf using splitTerminated.induct with
  | case1 buf p h ih =>
    rw [splitTerminated_some h]
    exact ih
  | case2 buf h =>
    rw [splitTerminated_none h]
    exact h

theorem receive_buf_loop_overflow (buf : List Char) (hc : buf.length ≤ BUFSZ) :
    (receive_buf_loop buf).2.2 = true ↔ (findCRLF buf = none ∧ buf.length = BUFSZ) := by
  induction buf using receive_buf_loop.induct with
  | case1 buf p h ih =>
    rw [receive_buf_loop_some h]
    have hb := findCRLF_some_bound h
    have hlen : (buf.drop (p + 2)).length ≤ BUFSZ := by
      simp only [List.length_drop]
      omega
    have hlt : (buf.drop (p + 2)).length ≠ BUFSZ := by
      simp only [List.length_drop]
      unfold BUFSZ at hc ⊢
      omega
    constructor
    · intro hov
      have := (ih hlen).mp hov
      exact absurd this.2 hlt
    · intro hcon
      rw [hcon.1] at h
      cases h
  | case2 buf h hfull =>
    rw [receive_buf_loop_none h]
    simp [h, hfull]
  | case3 buf h hnot =>
    rw [receive_buf_loop_none h]
    simp [h, hnot]

theorem receive_buf_loop_rest (buf : List Char) (hc : buf.length ≤ BUFSZ) :
    (receive_buf_loop buf).2.1 =
      if findCRLF buf = none ∧ buf.length = BUFSZ then []
      else (splitTerminated buf).2 := by
  induction buf using receive_buf_loop.induct with
  | case1 buf p h ih =>
    rw [receive_buf_loop_some h, splitTerminated_some h]
    have hb := findCRLF_some_bound h
    have hlen : (buf.drop (p + 2)).length ≤ BUFSZ := by
      simp only [List.length_drop]
      omega
    have hlt : ¬((buf.drop (p + 2)).length = BUFSZ) := by
      simp only [List.length_drop]
      unfold BUFSZ at hc ⊢
      omega
    have hne : ¬(findCRLF buf = none ∧ buf.length = BUFSZ) := by
      intro hcon
      rw [hcon.1] at h
      cases h
    rw [if_neg hne]
    rw [ih hlen]
    have hlt2 : ¬(findCRLF (buf.drop (p + 2)) = none ∧ (buf.drop (p + 2)).length = BUFSZ) :=
      fun hcon => hlt hcon.2
    rw [if_neg hlt2]
  | case2 buf h hfull =>
    rw [receive_buf_loop_none h, splitTerminated_none h]
    simp [h, hfull]
  | case3 buf h hnot =>
    rw [receive_buf_loop_none h, splitTerminated_none h]
    simp [h, hnot]

/-!  Command engine (`__mpwr_serdev_at_cmd` and its retry wrapper). -/

/-- Outcome of one AT command transaction, as distinguished by the C
return codes (`0`, `-EINVAL`, `-ETIMEDOUT`, `-EBUSY`, send failure). -/
inductive AtResult
  | ok (lines : List (List Char))
  | protoError
  | timeout
  | busy
  | sendFailed
  deriving Repr, DecidableEq

/-- `test_and_set_bit(MPWR_F_RECEIVING_MSG, ...)`: returns the previous
value of the single in-flight flag and the state with the flag set. -/
def test_and_set_receiving (st : Mpwr) : Bool × Mpwr :=
  (st.receivingMsg, {st with receivingMsg := true})

/-- `__mpwr_serdev_at_cmd`, with the serial transport modelled by `sendOk`
(whether `mpwr_serdev_send_msg` succeeds) and `arrivals` (the complete
lines the transport delivers before the timeout expires; the bounded wait
itself is subsumed by this list).  Fails with busy immediately when a
command is already outstanding; otherwise clears the response buffer,
transmits the command, consumes arriving lines, and classifies the
outcome: still-outstanding after all arrivals means timeout (the flag is
force-cleared), otherwise `msg_ok` decides success or protocol error. -/
def mpwr_serdev_at_cmd (st : Mpwr) (cmd : List Char) (sendOk : Bool)
    (arrivals : List (List Char)) : Mpwr × AtResult × List HwEv :=
  let t := test_and_set_receiving st
  if t.1 then (st, .busy, [])
  else
    let st1 := {t.2 with msgLen := 0, msgLines := []}
    if sendOk = false then
      ({st1 with receivingMsg := false}, .sendFailed, [])
    else
      let r := mpwr_receive_lines st1 arrivals
      let st2 := r.1
      if st2.receivingMsg then
        ({st2 with receivingMsg := false}, .timeout, .serdevSend cmd :: r.2)
      else if st2.msgOk then (st2, .ok st2.msgLines, .serdevSend cmd :: r.2)
      else (st2, .protoError, .serdevSend cmd :: r.2)

/-- Events of the retry wrapper: the numbered attempts with their C return
codes, and the fixed inter-attempt delays. -/
inductive RetryEv
  | attempt (i : Nat) (ret : Int)
  | sleepMs (ms : Nat)
  deriving Repr, DecidableEq

/-- The `while (tries-- > 0)` loop of `__mpwr_serdev_at_cmd_with_retry`:
`f i` is the C return code of attempt `i` (the attempts are independent
transactions, so they are modelled by an oracle).  A result other than
`-EINVAL` — and, unless `ignoreTimeout`, other than `-ETIMEDOUT` — is
returned immediately; before every retry other than a timeout retry the
loop sleeps 1000 ms (it also sleeps after a final failed error attempt,
on its way out of the loop). -/
def retry_loop (f : Nat → Int) (ignoreTimeout : Bool) :
    Nat → Nat → Int → List RetryEv → Int × List RetryEv
  | _, 0, ret, tr => (ret, tr)
  | i, rem + 1, _, tr =>
    let ret := f i
    let tr1 := tr ++ [.attempt i ret]
    if ret ≠ -(EINVAL : Int) ∧ (ignoreTimeout = false ∨ ret ≠ -(ETIMEDOUT : Int)) then
      (ret, tr1)
    else
      retry_loop f ignoreTimeout (i + 1) rem ret
        (if ret ≠ -(ETIMEDOUT : Int) then tr1 ++ [.sleepMs 1000] else tr1)

/-- `__mpwr_serdev_at_cmd_with_retry` (with `tries` clamped to at least 1,
as in the C code). -/
def mpwr_serdev_at_cmd_with_retry (f : Nat → Int) (tries : Int)
    (ignoreTimeout : Bool) : Int × List RetryEv :=
  let t : Nat := if tries < 1 then 1 else tries.toNat
  retry_loop f ignoreTimeout 0 t 0 []

/-!  Character-device reader (`mpwr_read`). -/

/-- Outcome of one `mpwr_read` call.  `blocked` stands for a blocking call
whose wait condition (non-empty FIFO or latched overflow) never comes
true. -/
inductive ReadResult
  | wouldBlock
  | blocked
  | marker
  | tooBig
  | bytes (data : List Char)
  deriving Repr, DecidableEq

/-- `mpwr_read`: a non-blocking read of an empty FIFO fails immediately;
otherwise the caller waits until the FIFO is non-empty or the overflow bit
is latched.  A latched overflow bit is test-and-cleared first; only then
is the user buffer length checked against the 9-byte marker, so a short
buffer loses the marker.  Otherwise up to `len` queued bytes are copied
out of the FIFO. -/
def mpwr_read (st : Mpwr) (len : Nat) (nonBlocking : Bool) : Mpwr × ReadResult :=
  if nonBlocking = true ∧ st.kfifo = [] then (st, .wouldBlock)
  else if st.kfifo = [] ∧ st.overflow = false then (st, .blocked)
  else if st.overflow then
    let st1 := {st with overflow := false}
    if len < 9 then (st1, .tooBig)
    else (st1, .marker)
  else
    ({st with kfifo := st.kfifo.drop len}, .bytes (st.kfifo.take len))

/-!  Power sequencer (`mpwr_eg25_power_up` and the generic layer). -/

/-- Environment of one eg25 power-up run: which optional GPIO lines are
wired, the collaborator return codes, and whether the wakeup/status
readiness conditions are observed within their 10-second bounded wait
(`wakeupSeen` / `statusSeen` abstract the 50 ms polling loop).
`configRet` abstracts the AT configuration phase that runs after the
handshake transport is open (`AT&FE0` retry, firmware version dump, QDAI
and QCFG reconciliation, URC port setup): `0` if no fatal step failed,
otherwise the first fatal error; no claim depends on its internals. -/
structure Eg25Env where
  regulatorEnableRet : Int
  statusPresent : Bool
  pwrkeyPresent : Bool
  sleepPresent : Bool
  hostReadyPresent : Bool
  wakeupSeen : Bool
  statusSeen : Bool
  serdevOpenRet : Int
  setParityRet : Int
  configRet : Int
  deriving Repr, DecidableEq

/-- The `err_shutdown_noclose` block of `mpwr_eg25_power_up` (also the
tail of `err_shutdown`): warn about forced power cut, put every wired
control line back to an un-driven input, and disable the regulator.
(GPIO calls on absent optional lines are no-ops in the kernel.) -/
def eg25_forced_power_off (env : Eg25Env) : List HwEv :=
  [.warnMsg, .gpioDirIn .enable, .gpioDirIn .reset]
  ++ (if env.sleepPresent then [.gpioDirIn .sleepPin] else [])
  ++ (if env.pwrkeyPresent then [.gpioDirIn .pwrkey] else [])
  ++ (if env.hostReadyPresent then [.gpioDirIn .hostReady] else [])
  ++ [.gpioDirIn .dtr, .regulatorDisable]

/-- `test_and_set_bit(MPWR_F_KILLSWITCHED)` followed by a sysfs
notification only on the false-to-true transition. -/
def latch_killswitched (st : Mpwr) : Mpwr × List HwEv :=
  if st.killswitched then (st, [])
  else ({st with killswitched := true}, [.sysfsNotify .killswitched])

/-- `test_and_clear_bit(MPWR_F_KILLSWITCHED)` followed by a sysfs
notification only on the true-to-false transition. -/
def clear_killswitched (st : Mpwr) : Mpwr × List HwEv :=
  if st.killswitched then ({st with killswitched := false}, [.sysfsNotify .killswitched])
  else (st, [])

/-- The tail of `mpwr_eg25_power_up` from the `open_serdev` label on:
open and configure the transport, skip the protocol phase for dumb or
fastboot power-ups, run the configuration phase, and on success drive DTR
high and report success; transport or configuration failure forces power
off (closing the transport first when it was successfully opened). -/
def eg25_open_serdev (st : Mpwr) (env : Eg25Env) (fastboot : Bool)
    (evs : List HwEv) : Mpwr × Int × List HwEv :=
  let evs1 := evs ++ [.serdevOpen]
  if env.serdevOpenRet ≠ 0 then
    (st, -(ENODEV : Int), evs1 ++ eg25_forced_power_off env)
  else if env.setParityRet ≠ 0 then
    (st, -(ENODEV : Int), evs1 ++ [.serdevClose] ++ eg25_forced_power_off env)
  else if st.dumbPowerup = true ∨ fastboot = true then
    (st, 0, evs1 ++ [.gpioDirOut .dtr true])
  else if env.configRet ≠ 0 then
    (st, -(ENODEV : Int), evs1 ++ [.serdevClose] ++ eg25_forced_power_off env)
  else
    (st, 0, evs1 ++ [.gpioDirOut .dtr true])

/-- Enable the regulator, drive the default GPIO levels for power-up, and
send the 200 ms PWRKEY pulse (the block of `mpwr_eg25_power_up` between
`regulator_enable` and the readiness polling loop). -/
def eg25_powerup_gpio_evs (env : Eg25Env) (fastboot : Bool) : List HwEv :=
  [.regulatorEnable]
  ++ (if env.hostReadyPresent then [.gpioDirOut .hostReady true] else [])
  ++ [.gpioDirOut .enable (!fastboot)]
  ++ (if env.sleepPresent then [.gpioDirOut .sleepPin false] else [])
  ++ [.gpioDirOut .reset false]
  ++ (if env.pwrkeyPresent then [.gpioDirOut .pwrkey false] else [])
  ++ [.gpioDirOut .dtr false, .sleepMs 50]
  ++ (if env.pwrkeyPresent then [.gpioSet .pwrkey true] else [])
  ++ [.sleepMs 200]
  ++ (if env.pwrkeyPresent then [.gpioSet .pwrkey false] else [])

/-- `mpwr_eg25_power_up`: consume the one-shot fastboot flag, enable the
regulator, drive the default GPIO levels, send the 200 ms PWRKEY pulse,
then (unless fastboot) poll the wakeup and status readiness conditions for
up to 10 s.  A never-active wakeup signal means the modem is
kill-switched: the flag is latched (with a notification on the
transition) and the sequence aborts with forced power removal; a missing
status condition aborts the same way without claiming kill-switch; on
success the kill-switch flag is cleared and the transport phase runs. -/
def mpwr_eg25_power_up (st : Mpwr) (env : Eg25Env) : Mpwr × Int × List HwEv :=
  let fastboot := st.fastbootPowerup
  let st := {st with fastbootPowerup := false}
  if env.regulatorEnableRet < 0 then
    (st, env.regulatorEnableRet, [.regulatorEnable])
  else
    let evs0 : List HwEv := eg25_powerup_gpio_evs env fastboot
    if fastboot then eg25_open_serdev st env fastboot evs0
    else
      let evs1 := evs0 ++ (if env.statusPresent then [.gpioDirIn .status] else [])
      let statusOk := if env.statusPresent then env.statusSeen else true
      let wakeupOk := env.wakeupSeen
      if wakeupOk = false then
        let r := latch_killswitched st
        (r.1, -(ENODEV : Int), evs1 ++ r.2 ++ eg25_forced_power_off env)
      else if statusOk = false then
        (st, -(ENODEV : Int), evs1 ++ eg25_forced_power_off env)
      else
        let r := clear_killswitched st
        eg25_open_serdev r.1 env fastboot (evs1 ++ r.2)

/-- `mpwr_power_up` (generic layer): a no-op when already powered;
otherwise run the variant sequence and set the powered flag (with a sysfs
notification) only on success. -/
def mpwr_power_up (st : Mpwr) (env : Eg25Env) : Mpwr × List HwEv :=
  if st.powered then (st, [])
  else
    let r := mpwr_eg25_power_up st env
    if r.2.1 ≠ 0 then (r.1, r.2.2)
    else ({r.1 with powered := true}, r.2.2 ++ [.sysfsNotify .powered])

/-- `mpwr_power_down` (generic layer), with the eg25 variant power-down
body abstracted by its environment-supplied return code and trace (no
claim exercises its internals): a no-op when not powered; the powered
flag is cleared (with a notification) only on success. -/
def mpwr_power_down (st : Mpwr) (pdRet : Int) (pdEvs : List HwEv) :
    Mpwr × List HwEv :=
  if st.powered = false then (st, [])
  else if pdRet ≠ 0 then (st, pdEvs)
  else ({st with powered := false}, pdEvs ++ [.sysfsNotify .powered])

/-- `mpwr_reset` for the eg25 variant: the variant defines no reset
callback, so after the powered/reset-gpio checks the generic code logs
and does nothing. -/
def mpwr_reset (st : Mpwr) : Mpwr × List HwEv := (st, [])

def MPWR_REQ_NONE : Nat := 0
def MPWR_REQ_RESET : Nat := 1
def MPWR_REQ_PWDN : Nat := 2
def MPWR_REQ_PWUP : Nat := 3

/-- `mpwr_request_power_change`: raise the busy flag (notifying sysfs),
store the request in the single-slot last-request mailbox, and queue the
worker. -/
def mpwr_request_power_change (st : Mpwr) (request : Nat) : Mpwr × List HwEv :=
  ({st with inprogress := true, lastRequest := request}, [.sysfsNotify .isBusy])

/-- `mpwr_work_handler`: take the pending request out of the mailbox, run
the matching operation under the modem lock, then clear the busy flag,
notify sysfs and wake waiters. -/
def mpwr_work_handler (st : Mpwr) (env : Eg25Env) (pdRet : Int)
    (pdEvs : List HwEv) : Mpwr × List HwEv :=
  let req := st.lastRequest
  let st0 := {st with lastRequest := 0}
  let r :=
    if req = MPWR_REQ_RESET then mpwr_reset st0
    else if req = MPWR_REQ_PWDN then mpwr_power_down st0 pdRet pdEvs
    else if req = MPWR_REQ_PWUP then mpwr_power_up st0 env
    else (st0, [])
  ({r.1 with inprogress := false}, r.2 ++ [.sysfsNotify .isBusy, .wakeUpWaiters])

/-!  Wakeup / kill-switch watchdog (`mpwr_wd_timer_fn`). -/

/-- What one watchdog tick observes: whether the variant monitors wakeup,
the current level of the wakeup line, and the elapsed milliseconds since
the last wakeup edge recorded by the interrupt handler. -/
structure WdEnv where
  monitorWakeup : Bool
  wakeupLevel : Bool
  msSinceLastWakeup : Int
  deriving Repr, DecidableEq

/-- `mpwr_wd_timer_fn`: only while powered (and monitoring applies), a
wakeup line that has been inactive for more than the 5000 ms grace window
latches the kill-switch flag — notifying only on the transition — and
wakes waiters with a warning. -/
def mpwr_wd_timer_fn (st : Mpwr) (env : WdEnv) : Mpwr × List HwEv :=
  if env.monitorWakeup = false ∨ st.powered = false then (st, [])
  else if env.wakeupLevel then (st, [])
  else if env.msSinceLastWakeup > 5000 then
    let r := latch_killswitched st
    (r.1, r.2 ++ [.wakeUpWaiters, .warnMsg])
  else (st, [])

/-- Number of kill-switch sysfs notifications in a trace. -/
def countKsNotify (evs : List HwEv) : Nat :=
  (evs.filter (fun e => e = HwEv.sysfsNotify .killswitched)).length

/-!  Specification-side helpers for the command-engine claims. -/

/-- Bytes a list of lines occupies in the 4096-byte `msg` buffer
(`len + 1` per line, including the terminating NUL). -/
def lineWeight (ls : List (List Char)) : Nat :=
  (ls.map (fun l => l.length + 1)).sum

/-- Specification-level accumulation: append each line that still fits in
the 4096-byte response buffer, drop (but do not abort on) a line that
would not fit. -/
def collectFitting : List (List Char) → List (List Char) → List (List Char)
  | [], acc => acc
  | l :: ls, acc =>
    if lineWeight acc + l.length + 1 > BUFSZ then collectFitting ls acc
    else collectFitting ls (acc ++ [l])

/-- Whether a line is one of the two terminal status lines. -/
def isTerminalLine (l : List Char) : Bool :=
  decide (l = okLine) || decide (l = errorLine)

/-- The non-terminal lines arriving before the first terminal line. -/
def preTerminal (arr : List (List Char)) : List (List Char) :=
  arr.takeWhile (fun l => !isTerminalLine l)

/-- The first terminal status line among the arrivals, if any. -/
def firstTerminal (arr : List (List Char)) : Option (List Char) :=
  (arr.dropWhile (fun l => !isTerminalLine l)).head?

theorem lineWeight_append (acc : List (List Char)) (l : List Char) :
    lineWeight (acc ++ [l]) = lineWeight acc + (l.length + 1) := by
  simp [lineWeight]

/-- The variant handler never touches the command-engine fields. -/
theorem eg25_preserves_engine (st : Mpwr) (msg : List Char) :
    (mpwr_eg25_receive_msg st msg).1.receivingMsg = st.receivingMsg ∧
    (mpwr_eg25_receive_msg st msg).1.msgLines = st.msgLines ∧
    (mpwr_eg25_receive_msg st msg).1.msgLen = st.msgLen ∧
    (mpwr_eg25_receive_msg st msg).1.msgOk = st.msgOk := by
  unfold mpwr_eg25_receive_msg
  split_ifs <;> simp

/-- While no transaction is outstanding, a line only goes through the
variant handler. -/
theorem serdev_receive_msg_idle (st : Mpwr) (msg : List Char)
    (h : st.receivingMsg = false) :
    mpwr_serdev_receive_msg st msg = mpwr_eg25_receive_msg st msg := by
  unfold mpwr_serdev_receive_msg
  have he := eg25_preserves_engine st msg
  simp [he.1, h]

/-- Once the transaction has been closed, later lines leave the engine
fields untouched. -/
theorem receive_lines_frozen (arr : List (List Char)) (st : Mpwr)
    (h : st.receivingMsg = false) :
    (mpwr_receive_lines st arr).1.receivingMsg = false ∧
    (mpwr_receive_lines st arr).1.msgLines = st.msgLines ∧
    (mpwr_receive_lines st arr).1.msgOk = st.msgOk := by
  induction arr generalizing st with
  | nil => simp [mpwr_receive_lines, h]
  | cons m ms ih =>
    simp only [mpwr_receive_lines]
    rw [serdev_receive_msg_idle st m h]
    have he := eg25_preserves_engine st m
    have h1 : (mpwr_eg25_receive_msg st m).1.receivingMsg = false := by
      rw [he.1]; exact h
    have := ih (mpwr_eg25_receive_msg st m).1 h1
    exact ⟨this.1, this.2.1.trans he.2.1, this.2.2.trans he.2.2.2⟩


theorem serdev_receive_msg_ok (st : Mpwr) (h : st.receivingMsg = true) :
    (mpwr_serdev_receive_msg st okLine).1 =
      {(mpwr_eg25_receive_msg st okLine).1 with receivingMsg := false, msgOk := true} := by
  unfold mpwr_serdev_receive_msg
  have he := eg25_preserves_engine st okLine
  simp [he.1, h]

theorem serdev_receive_msg_error (st : Mpwr) (h : st.receivingMsg = true) :
    (mpwr_serdev_receive_msg st errorLine).1 =
      {(mpwr_eg25_receive_msg st errorLine).1 with receivingMsg := false, msgOk := false} := by
  unfold mpwr_serdev_receive_msg
  have he := eg25_preserves_engine st errorLine
  have hne : ¬(errorLine = okLine) := by decide
  simp [he.1, h, hne]

theorem serdev_receive_msg_data (st : Mpwr) (msg : List Char)
    (h : st.receivingMsg = true) (hok : ¬(msg = okLine)) (herr : ¬(msg = errorLine)) :
    (mpwr_serdev_receive_msg st msg).1 =
      (if st.msgLen + msg.length + 1 > BUFSZ then (mpwr_eg25_receive_msg st msg).1
       else {(mpwr_eg25_receive_msg st msg).1 with
              msgLines := st.msgLines ++ [msg],
              msgLen := st.msgLen + msg.length + 1}) := by
  unfold mpwr_serdev_receive_msg
  have he := eg25_preserves_engine st msg
  simp only [he.1, h, hok, herr, he.2.1, he.2.2.1, Bool.true_eq_false, if_false,
    ite_false, gt_iff_lt]
  split <;> rfl

theorem firstTerminal_cons_term {m : List Char} (ms : List (List Char))
    (h : isTerminalLine m = true) : firstTerminal (m :: ms) = some m := by
  simp [firstTerminal, List.dropWhile_cons, h]

theorem firstTerminal_cons_nonterm {m : List Char} (ms : List (List Char))
    (h : isTerminalLine m = false) : firstTerminal (m :: ms) = firstTerminal ms := by
  simp [firstTerminal, List.dropWhile_cons, h]

theorem preTerminal_cons_term {m : List Char} (ms : List (List Char))
    (h : isTerminalLine m = true) : preTerminal (m :: ms) = [] := by
  simp [preTerminal, List.takeWhile_cons, h]

theorem preTerminal_cons_nonterm {m : List Char} (ms : List (List Char))
    (h : isTerminalLine m = false) : preTerminal (m :: ms) = m :: preTerminal ms := by
  simp [preTerminal, List.takeWhile_cons, h]

/-- While neither terminal line arrives, the transaction stays
outstanding and exactly the fitting lines accumulate, in order. -/
theorem receive_lines_no_terminal (arr : List (List Char)) (st : Mpwr)
    (hr : st.receivingMsg = true) (hw : st.msgLen = lineWeight st.msgLines)
    (hn : firstTerminal arr = none) :
    (mpwr_receive_lines st arr).1.receivingMsg = true ∧
    (mpwr_receive_lines st arr).1.msgLines = collectFitting arr st.msgLines ∧
    (mpwr_receive_lines st arr).1.msgLen =
      lineWeight ((mpwr_receive_lines st arr).1.msgLines) := by
  induction arr generalizing st with
  | nil =>
    simp only [mpwr_receive_lines, collectFitting]
    exact ⟨hr, by trivial, hw⟩
  | cons m ms ih =>
    have hm : isTerminalLine m = false := by
      by_contra hc
      have hc' : isTerminalLine m = true := by simpa using hc
      rw [firstTerminal_cons_term ms hc'] at hn
      cases hn
    have hm1 : ¬(m = okLine) := by
      intro hq; subst hq; simp [isTerminalLine] at hm
    have hm2 : ¬(m = errorLine) := by
      intro hq; subst hq; simp [isTerminalLine] at hm
    have hn' : firstTerminal ms = none := by
      rw [firstTerminal_cons_nonterm ms hm] at hn
      exact hn
    simp only [mpwr_receive_lines]
    rw [serdev_receive_msg_data st m hr hm1 hm2]
    have he := eg25_preserves_engine st m
    rw [collectFitting]
    by_cases hfit : st.msgLen + m.length + 1 > BUFSZ
    · rw [if_pos hfit, if_pos (by rw [← hw]; exact hfit)]
      have hw' : (mpwr_eg25_receive_msg st m).1.msgLen =
          lineWeight ((mpwr_eg25_receive_msg st m).1.msgLines) := by
        rw [he.2.2.1, he.2.1]; exact hw
      have ih' := ih (mpwr_eg25_receive_msg st m).1 (he.1.trans hr) hw' hn'
      exact ⟨ih'.1, ih'.2.1.trans (by rw [he.2.1]), ih'.2.2⟩
    · rw [if_neg hfit, if_neg (by rw [← hw]; exact hfit)]
      set st2 : Mpwr := {(mpwr_eg25_receive_msg st m).1 with
        msgLines := st.msgLines ++ [m],
        msgLen := st.msgLen + m.length + 1} with hst2
      have hr2 : st2.receivingMsg = true := by
        simp only [hst2]
        exact he.1.trans hr
      have hw2 : st2.msgLen = lineWeight st2.msgLines := by
        simp only [hst2, lineWeight_append]
        omega
      have ih' := ih st2 hr2 hw2 hn'
      refine ⟨ih'.1, ih'.2.1.trans ?_, ih'.2.2⟩
      simp only [hst2]


/-- If `OK` is the first terminal line to arrive, the transaction closes
with success and exactly the fitting non-terminal lines accumulated. -/
theorem receive_lines_ok_first (arr : List (List Char)) (st : Mpwr)
    (hr : st.receivingMsg = true) (hw : st.msgLen = lineWeight st.msgLines)
    (h : firstTerminal arr = some okLine) :
    (mpwr_receive_lines st arr).1.receivingMsg = false ∧
    (mpwr_receive_lines st arr).1.msgOk = true ∧
    (mpwr_receive_lines st arr).1.msgLines =
      collectFitting (preTerminal arr) st.msgLines := by
  induction arr generalizing st with
  | nil => simp [firstTerminal] at h
  | cons m ms ih =>
    by_cases hm : isTerminalLine m = true
    · rw [firstTerminal_cons_term ms hm] at h
      injection h with h
      subst h
      rw [preTerminal_cons_term ms hm]
      simp only [mpwr_receive_lines]
      rw [serdev_receive_msg_ok st hr]
      have he := eg25_preserves_engine st okLine
      set st2 : Mpwr :=
        {(mpwr_eg25_receive_msg st okLine).1 with receivingMsg := false, msgOk := true}
        with hst2
      have hfr := receive_lines_frozen ms st2 (by simp only [hst2])
      refine ⟨hfr.1, hfr.2.2.trans (by simp only [hst2]), hfr.2.1.trans ?_⟩
      simp only [hst2, collectFitting]
      exact he.2.1
    · have hm' : isTerminalLine m = false := by simpa using hm
      have hm1 : ¬(m = okLine) := by
        intro hq; subst hq; simp [isTerminalLine] at hm'
      have hm2 : ¬(m = errorLine) := by
        intro hq; subst hq; simp [isTerminalLine] at hm'
      rw [firstTerminal_cons_nonterm ms hm'] at h
      rw [preTerminal_cons_nonterm ms hm']
      simp only [mpwr_receive_lines]
      rw [serdev_receive_msg_data st m hr hm1 hm2]
      have he := eg25_preserves_engine st m
      rw [collectFitting]
      by_cases hfit : st.msgLen + m.length + 1 > BUFSZ
      · rw [if_pos hfit, if_pos (by rw [← hw]; exact hfit)]
        have hw' : (mpwr_eg25_receive_msg st m).1.msgLen =
            lineWeight ((mpwr_eg25_receive_msg st m).1.msgLines) := by
          rw [he.2.2.1, he.2.1]; exact hw
        have ih' := ih (mpwr_eg25_receive_msg st m).1 (he.1.trans hr) hw' h
        exact ⟨ih'.1, ih'.2.1, ih'.2.2.trans (by rw [he.2.1])⟩
      · rw [if_neg hfit, if_neg (by rw [← hw]; exact hfit)]
        set st2 : Mpwr := {(mpwr_eg25_receive_msg st m).1 with
          msgLines := st.msgLines ++ [m],
          msgLen := st.msgLen + m.length + 1} with hst2
        have hr2 : st2.receivingMsg = true := by
          simp only [hst2]
          exact he.1.trans hr
        have hw2 : st2.msgLen = lineWeight st2.msgLines := by
          simp only [hst2, lineWeight_append]
          omega
        have ih' := ih st2 hr2 hw2 h
        refine ⟨ih'.1, ih'.2.1, ih'.2.2.trans ?_⟩
        simp only [hst2]

/-- If `ERROR` is the first terminal line to arrive, the transaction
closes with failure regardless of accumulated lines. -/
theorem receive_lines_error_first (arr : List (List Char)) (st : Mpwr)
    (hr : st.receivingMsg = true) (hw : st.msgLen = lineWeight st.msgLines)
    (h : firstTerminal arr = some errorLine) :
    (mpwr_receive_lines st arr).1.receivingMsg = false ∧
    (mpwr_receive_lines st arr).1.msgOk = false := by
  induction arr generalizing st with
  | nil => simp [firstTerminal] at h
  | cons m ms ih =>
    by_cases hm : isTerminalLine m = true
    · rw [firstTerminal_cons_term ms hm] at h
      injection h with h
      subst h
      simp only [mpwr_receive_lines]
      rw [serdev_receive_msg_error st hr]
      set st2 : Mpwr :=
        {(mpwr_eg25_receive_msg st errorLine).1 with receivingMsg := false, msgOk := false}
        with hst2
      have hfr := receive_lines_frozen ms st2 (by simp only [hst2])
      exact ⟨hfr.1, hfr.2.2.trans (by simp only [hst2])⟩
    · have hm' : isTerminalLine m = false := by simpa using hm
      have hm1 : ¬(m = okLine) := by
        intro hq; subst hq; simp [isTerminalLine] at hm'
      have hm2 : ¬(m = errorLine) := by
        intro hq; subst hq; simp [isTerminalLine] at hm'
      rw [firstTerminal_cons_nonterm ms hm'] at h
      simp only [mpwr_receive_lines]
      rw [serdev_receive_msg_data st m hr hm1 hm2]
      have he := eg25_preserves_engine st m
      by_cases hfit : st.msgLen + m.length + 1 > BUFSZ
      · rw [if_pos hfit]
        have hw' : (mpwr_eg25_receive_msg st m).1.msgLen =
            lineWeight ((mpwr_eg25_receive_msg st m).1.msgLines) := by
          rw [he.2.2.1, he.2.1]; exact hw
        exact ih (mpwr_eg25_receive_msg st m).1 (he.1.trans hr) hw' h
      · rw [if_neg hfit]
        set st2 : Mpwr := {(mpwr_eg25_receive_msg st m).1 with
          msgLines := st.msgLines ++ [m],
          msgLen := st.msgLen + m.length + 1} with hst2
        have hr2 : st2.receivingMsg = true := by
          simp only [hst2]
          exact he.1.trans hr
        have hw2 : st2.msgLen = lineWeight st2.msgLines := by
          simp only [hst2, lineWeight_append]
          omega
        exact ih st2 hr2 hw2 h


/-- C1: for every AT command send that transmits successfully, the first
terminal line decides the outcome: `OK` yields success with the fitting
non-terminal lines accumulated in arrival order (an over-large line is
dropped without aborting), `ERROR` yields a protocol error regardless of
accumulated lines, and no terminal line yields timeout with the engine
immediately available again. -/
theorem at_cmd_terminal_outcomes (st : Mpwr) (cmd : List Char)
    (arr : List (List Char)) (h : st.receivingMsg = false) :
    (match firstTerminal arr with
     | some t =>
       (t = okLine →
         (mpwr_serdev_at_cmd st cmd true arr).2.1 =
           AtResult.ok (collectFitting (preTerminal arr) [])) ∧
       (t = errorLine →
         (mpwr_serdev_at_cmd st cmd true arr).2.1 = AtResult.protoError)
     | none =>
       (mpwr_serdev_at_cmd st cmd true arr).2.1 = AtResult.timeout ∧
       (mpwr_serdev_at_cmd st cmd true arr).1.receivingMsg = false) := by
  have hstep : mpwr_serdev_at_cmd st cmd true arr =
      (let st1 : Mpwr := {st with receivingMsg := true, msgLen := 0, msgLines := []}
       let r := mpwr_receive_lines st1 arr
       if r.1.receivingMsg then
         ({r.1 with receivingMsg := false}, .timeout, .serdevSend cmd :: r.2)
       else if r.1.msgOk then (r.1, .ok r.1.msgLines, .serdevSend cmd :: r.2)
       else (r.1, .protoError, .serdevSend cmd :: r.2)) := by
    unfold mpwr_serdev_at_cmd test_and_set_receiving
    simp [h]
  cases hft : firstTerminal arr with
  | some t =>
    constructor
    · intro ht
      subst ht
      have hc := receive_lines_ok_first arr
        {st with receivingMsg := true, msgLen := 0, msgLines := []} rfl rfl hft
      rw [hstep]
      simp only [hc.1, hc.2.1, hc.2.2, Bool.false_eq_true, if_false, if_true]
    · intro ht
      subst ht
      have hc := receive_lines_error_first arr
        {st with receivingMsg := true, msgLen := 0, msgLines := []} rfl rfl hft
      rw [hstep]
      simp only [hc.1, hc.2, Bool.false_eq_true, if_false]
  | none =>
    have hc := receive_lines_no_terminal arr
      {st with receivingMsg := true, msgLen := 0, msgLines := []} rfl rfl hft
    rw [hstep]
    constructor
    · simp only [hc.1, if_true]
    · simp only [hc.1, if_true]


/-- Witness for `at_cmd_terminal_outcomes`: the scenario
`send_command("AT")` with responses `["+T", "OK"]` returns success with
accumulated lines `["+T"]`. -/
theorem at_cmd_terminal_outcomes_witness :
    (mpwr_serdev_at_cmd initState ['A', 'T'] true [['+', 'T'], okLine]).2.1 =
      AtResult.ok [['+', 'T']] := by
  have h := at_cmd_terminal_outcomes initState ['A', 'T'] [['+', 'T'], okLine] rfl
  have h2 := h.1 rfl
  rw [h2]
  rfl


/-- C8: with a command already outstanding (the single receiving-message
flag set), any further send fails immediately with busy, transmits
nothing, and leaves the state — including the accumulated response —
unchanged; and after any first entry has test-and-set the flag, a second
entry always observes it as taken. -/
theorem at_cmd_single_in_flight :
    (∀ (st : Mpwr) (cmd : List Char) (sendOk : Bool) (arr : List (List Char)),
      st.receivingMsg = true →
      mpwr_serdev_at_cmd st cmd sendOk arr = (st, AtResult.busy, [])) ∧
    (∀ st : Mpwr, (test_and_set_receiving (test_and_set_receiving st).2).1 = true) := by
  constructor
  · intro st cmd sendOk arr h
    unfold mpwr_serdev_at_cmd test_and_set_receiving
    simp [h]
  · intro st
    rfl

/-- Witness for `at_cmd_single_in_flight` at a concrete busy state. -/
theorem at_cmd_single_in_flight_witness :
    mpwr_serdev_at_cmd {initState with receivingMsg := true} ['A', 'T'] true [] =
      ({initState with receivingMsg := true}, AtResult.busy, []) ∧
    (test_and_set_receiving (test_and_set_receiving initState).2).1 = true :=
  ⟨at_cmd_single_in_flight.1 {initState with receivingMsg := true} ['A', 'T'] true [] rfl,
   at_cmd_single_in_flight.2 initState⟩

/-- C2 as stated is false: a line arriving while a command is outstanding
is not delivered to the command engine only — the variant's
receive-message handler also sees it (and queues it for the open reader),
because `mpwr_serdev_receive_msg` invokes the variant handler on every
line before checking the receiving-message flag. -/
theorem receive_msg_line_reaches_dispatcher_while_busy :
    ({initState with receivingMsg := true, devOpen := true} : Mpwr).receivingMsg = true ∧
    (mpwr_serdev_receive_msg {initState with receivingMsg := true, devOpen := true}
        ['+', 'X']).1.kfifo = ['+', 'X', '\n'] ∧
    (mpwr_serdev_receive_msg {initState with receivingMsg := true, devOpen := true}
        ['+', 'X']).1.msgLines = [['+', 'X']] := by
  refine ⟨rfl, ?_, ?_⟩ <;> rfl

/-- C2 amended: the variant's receive-message handler sees every line, in
arrival order; a line arriving while a command is outstanding is
additionally consumed by the command engine; a line arriving while no
command is outstanding affects the dispatcher only. -/
theorem receive_msg_dispatch_order (st : Mpwr) (msg : List Char) :
    (mpwr_serdev_receive_msg st msg).1.kfifo = (mpwr_eg25_receive_msg st msg).1.kfifo ∧
    (mpwr_serdev_receive_msg st msg).1.overflow =
      (mpwr_eg25_receive_msg st msg).1.overflow ∧
    (mpwr_serdev_receive_msg st msg).1.gotPdn = (mpwr_eg25_receive_msg st msg).1.gotPdn ∧
    (st.receivingMsg = false →
      mpwr_serdev_receive_msg st msg = mpwr_eg25_receive_msg st msg) := by
  have key : (mpwr_serdev_receive_msg st msg).1.kfifo =
        (mpwr_eg25_receive_msg st msg).1.kfifo ∧
      (mpwr_serdev_receive_msg st msg).1.overflow =
        (mpwr_eg25_receive_msg st msg).1.overflow ∧
      (mpwr_serdev_receive_msg st msg).1.gotPdn =
        (mpwr_eg25_receive_msg st msg).1.gotPdn := by
    by_cases hrm : st.receivingMsg = false
    · rw [serdev_receive_msg_idle st msg hrm]
      exact ⟨rfl, rfl, rfl⟩
    · have hrm' : st.receivingMsg = true := by
        cases h : st.receivingMsg
        · exact absurd h hrm
        · rfl
      by_cases hok : msg = okLine
      · subst hok
        rw [serdev_receive_msg_ok st hrm']
        exact ⟨rfl, rfl, rfl⟩
      · by_cases herr : msg = errorLine
        · subst herr
          rw [serdev_receive_msg_error st hrm']
          exact ⟨rfl, rfl, rfl⟩
        · rw [serdev_receive_msg_data st msg hrm' hok herr]
          split_ifs <;> exact ⟨rfl, rfl, rfl⟩
  exact ⟨key.1, key.2.1, key.2.2, fun h => serdev_receive_msg_idle st msg h⟩

/-- Witness for `receive_msg_dispatch_order` at a concrete idle state. -/
theorem receive_msg_dispatch_order_witness :
    mpwr_serdev_receive_msg initState ['+', 'X'] =
      mpwr_eg25_receive_msg initState ['+', 'X'] :=
  (receive_msg_dispatch_order initState ['+', 'X']).2.2.2 rfl

/-- C5: lines are queued only while a reader session is open; a line that
would exceed the FIFO's remaining capacity is dropped with the one-shot
overflow bit latched (waking the reader only on the first overflow of the
episode, so repeated overflows do not stack) and the queued bytes kept
intact and in order; a fitting line is appended verbatim plus a line
feed; and a latched overflow marker is delivered to the reader exactly
once. -/
theorem event_queue_overflow_policy :
    (∀ (st : Mpwr) (msg : List Char), st.devOpen = false →
      (mpwr_eg25_receive_msg st msg).1.kfifo = st.kfifo) ∧
    (∀ (st : Mpwr) (msg : List Char),
      st.devOpen = true → ¬(msg = pdnLine) → ¬(msg = rdyLine) →
      msg.length + 1 > kfifo_avail st.kfifo →
      (mpwr_eg25_receive_msg st msg).1.kfifo = st.kfifo ∧
      (mpwr_eg25_receive_msg st msg).1.overflow = true ∧
      (mpwr_eg25_receive_msg st msg).2 =
        (if st.overflow then [] else [HwEv.wakeUpWaiters])) ∧
    (∀ (st : Mpwr) (msg : List Char),
      st.devOpen = true → ¬(msg = pdnLine) → ¬(msg = rdyLine) →
      msg.length + 1 ≤ kfifo_avail st.kfifo →
      (mpwr_eg25_receive_msg st msg).1.kfifo = st.kfifo ++ msg ++ ['\n']) ∧
    (∀ (st : Mpwr) (len : Nat) (nb : Bool),
      st.overflow = true → ¬(nb = true ∧ st.kfifo = []) → 9 ≤ len →
      (mpwr_read st len nb).2 = ReadResult.marker ∧
      (mpwr_read st len nb).1.overflow = false ∧
      ∀ (len2 : Nat) (nb2 : Bool),
        (mpwr_read (mpwr_read st len nb).1 len2 nb2).2 ≠ ReadResult.marker) := by
  refine ⟨?_, ?_, ?_, ?_⟩
  · intro st msg h
    unfold mpwr_eg25_receive_msg
    split_ifs <;> simp_all
  · intro st msg ho hp hr hov
    unfold mpwr_eg25_receive_msg
    rw [if_neg hp, if_neg hr]
    have : ¬(st.devOpen = false) := by simp [ho]
    rw [if_neg this, if_pos hov]
    split_ifs with h <;> simp [h]
  · intro st msg ho hp hr hfit
    unfold mpwr_eg25_receive_msg
    rw [if_neg hp, if_neg hr]
    have : ¬(st.devOpen = false) := by simp [ho]
    rw [if_neg this]
    have : ¬(msg.length + 1 > kfifo_avail st.kfifo) := by omega
    rw [if_neg this]
    simp only []
    unfold kfifo_in kfifo_avail at *
    have h1 : msg.take (BUFSZ - st.kfifo.length) = msg :=
      List.take_of_length_le (by omega)
    rw [h1]
    have h2 : (['\n'] : List Char).take (BUFSZ - (st.kfifo ++ msg).length) = ['\n'] := by
      apply List.take_of_length_le
      simp only [List.length_append, List.length_singleton]
      omega
    rw [h2]
  · intro st len nb hov hnb hlen
    unfold mpwr_read
    rw [if_neg hnb]
    have h1 : ¬(st.kfifo = [] ∧ st.overflow = false) := by
      simp [hov]
    rw [if_neg h1, if_pos (show st.overflow = true from hov)]
    have h2 : ¬(len < 9) := by omega
    rw [if_neg h2]
    refine ⟨rfl, rfl, ?_⟩
    intro len2 nb2
    split_ifs <;> simp_all

/-- An open-reader state whose event FIFO holds 4095 bytes. -/
def fullFifoState : Mpwr :=
  {initState with devOpen := true, kfifo := List.replicate 4095 'a'}

/-- An open-reader state with the overflow marker latched and one queued
byte. -/
def latchedState : Mpwr :=
  {initState with devOpen := true, overflow := true, kfifo := ['a']}

/-- Witness for `event_queue_overflow_policy`: a closed reader drops the
line; a 4095-byte-full FIFO overflows on a 2-byte line; a fitting line is
appended; a latched marker is read exactly once. -/
theorem event_queue_overflow_policy_witness :
    (mpwr_eg25_receive_msg {initState with devOpen := false} ['+', 'X']).1.kfifo = [] ∧
    (mpwr_eg25_receive_msg fullFifoState ['+', 'X']).1.overflow = true ∧
    (mpwr_eg25_receive_msg {initState with devOpen := true} ['+', 'X']).1.kfifo =
      ['+', 'X', '\n'] ∧
    (mpwr_read latchedState 64 false).2 = ReadResult.marker := by
  refine ⟨?_, ?_, ?_, ?_⟩
  · have h := event_queue_overflow_policy.1 {initState with devOpen := false} ['+', 'X'] rfl
    rw [h]
    rfl
  · have hov : (['+', 'X'] : List Char).length + 1 > kfifo_avail fullFifoState.kfifo := by
      have hk : fullFifoState.kfifo = List.replicate 4095 'a' := rfl
      rw [hk]
      unfold kfifo_avail BUFSZ
      rw [List.length_replicate]
      decide
    exact (event_queue_overflow_policy.2.1 fullFifoState ['+', 'X']
      rfl (by decide) (by decide) hov).2.1
  · have h := event_queue_overflow_policy.2.2.1 {initState with devOpen := true}
      ['+', 'X'] rfl (by decide) (by decide) (by decide)
    rw [h]
    rfl
  · exact (event_queue_overflow_policy.2.2.2 latchedState 64 false
      rfl (by simp [latchedState, initState]) (by omega)).1

/-- C10: a read entered while the overflow marker is latched
test-and-clears the latch before checking the user buffer length, so a
buffer shorter than the 9-byte marker makes the read fail with an error,
the marker is not delivered, and the episode's marker is lost — no
subsequent read delivers it. -/
theorem read_overflow_latch_cleared_before_len_check
    (st : Mpwr) (len : Nat) (nb : Bool)
    (hov : st.overflow = true) (hnb : ¬(nb = true ∧ st.kfifo = []))
    (hlen : len < 9) :
    (mpwr_read st len nb).2 = ReadResult.tooBig ∧
    (mpwr_read st len nb).1.overflow = false ∧
    ∀ (len2 : Nat) (nb2 : Bool),
      (mpwr_read (mpwr_read st len nb).1 len2 nb2).2 ≠ ReadResult.marker := by
  unfold mpwr_read
  rw [if_neg hnb]
  have h1 : ¬(st.kfifo = [] ∧ st.overflow = false) := by
    simp [hov]
  rw [if_neg h1, if_pos (show st.overflow = true from hov), if_pos hlen]
  refine ⟨rfl, rfl, ?_⟩
  intro len2 nb2
  split_ifs <;> simp_all

/-- Witness for `read_overflow_latch_cleared_before_len_check` with an
8-byte user buffer. -/
theorem read_overflow_latch_cleared_witness :
    (mpwr_read latchedState 8 false).2 = ReadResult.tooBig ∧
    (mpwr_read (mpwr_read latchedState 8 false).1 64 false).2 ≠ ReadResult.marker := by
  have h := read_overflow_latch_cleared_before_len_check latchedState 8 false
    rfl (by simp [latchedState, initState]) (by omega)
  exact ⟨h.1, h.2.2 64 false⟩


/-- C9: latching the kill-switch flag while it is already set produces no
notification, so two consecutive watchdog ticks that both observe the
kill-switch condition produce exactly one notification when the flag
started clear (and none when it was already set). -/
theorem killswitch_notify_edge_triggered :
    (∀ st : Mpwr, st.killswitched = true → latch_killswitched st = (st, [])) ∧
    (∀ (st : Mpwr) (env : WdEnv),
      env.monitorWakeup = true → st.powered = true → env.wakeupLevel = false →
      env.msSinceLastWakeup > 5000 →
      countKsNotify ((mpwr_wd_timer_fn st env).2 ++
          (mpwr_wd_timer_fn (mpwr_wd_timer_fn st env).1 env).2) =
        (if st.killswitched then 0 else 1) ∧
      (mpwr_wd_timer_fn (mpwr_wd_timer_fn st env).1 env).1.killswitched = true) := by
  constructor
  · intro st h
    unfold latch_killswitched
    rw [if_pos (show st.killswitched = true from h)]
  · intro st env hm hp hw hms
    unfold mpwr_wd_timer_fn latch_killswitched
    by_cases hk : st.killswitched = true
    · simp [hm, hp, hw, hms, hk, countKsNotify]
    · simp [hm, hp, hw, hms, hk, countKsNotify]

/-- Witness for `killswitch_notify_edge_triggered`: starting from a clear
flag, two triggering ticks notify exactly once. -/
theorem killswitch_notify_edge_triggered_witness :
    latch_killswitched {initState with killswitched := true} =
      ({initState with killswitched := true}, []) ∧
    countKsNotify
      ((mpwr_wd_timer_fn {initState with powered := true}
          ⟨true, false, 6000⟩).2 ++
        (mpwr_wd_timer_fn
          (mpwr_wd_timer_fn {initState with powered := true} ⟨true, false, 6000⟩).1
          ⟨true, false, 6000⟩).2) = 1 := by
  constructor
  · exact killswitch_notify_edge_triggered.1 {initState with killswitched := true} rfl
  · have h := (killswitch_notify_edge_triggered.2 {initState with powered := true}
      ⟨true, false, 6000⟩ rfl rfl rfl (by decide)).1
    rw [h]
    rfl

/-- `mpwr_power_up` is a no-op when the device is already powered. -/
theorem mpwr_power_up_noop (st : Mpwr) (env : Eg25Env) (h : st.powered = true) :
    mpwr_power_up st env = (st, []) := by
  unfold mpwr_power_up
  rw [if_pos (show st.powered = true from h)]

/-- C7: requesting power-up while the device is already powered is a
no-op — `mpwr_power_up` returns the state unchanged and performs no
hardware action; the full request-then-worker round trip leaves the
powered and busy flags as they were (the busy flag is cleared again by
the worker) and performs only sysfs busy notifications and a wake-up, no
GPIO, regulator or variant action. -/
theorem power_up_idempotent :
    (∀ (st : Mpwr) (env : Eg25Env), st.powered = true →
      mpwr_power_up st env = (st, [])) ∧
    (∀ (st : Mpwr) (env : Eg25Env) (pdRet : Int) (pdEvs : List HwEv),
      st.powered = true → st.inprogress = false →
      (mpwr_work_handler (mpwr_request_power_change st MPWR_REQ_PWUP).1
          env pdRet pdEvs).1.powered = st.powered ∧
      (mpwr_work_handler (mpwr_request_power_change st MPWR_REQ_PWUP).1
          env pdRet pdEvs).1.inprogress = st.inprogress ∧
      (mpwr_request_power_change st MPWR_REQ_PWUP).2 ++
        (mpwr_work_handler (mpwr_request_power_change st MPWR_REQ_PWUP).1
          env pdRet pdEvs).2 =
        [HwEv.sysfsNotify .isBusy, HwEv.sysfsNotify .isBusy, HwEv.wakeUpWaiters]) := by
  constructor
  · intro st env h
    exact mpwr_power_up_noop st env h
  · intro st env pdRet pdEvs hp hb
    have hnoop := mpwr_power_up_noop
      {st with powered := true, inprogress := true, lastRequest := 0} env rfl
    simp [mpwr_work_handler, mpwr_request_power_change, MPWR_REQ_RESET,
      MPWR_REQ_PWDN, MPWR_REQ_PWUP, hp, hb, hnoop]


/-- A power-up environment in which every collaborator succeeds and both
readiness conditions are observed in time. -/
def sampleEnv : Eg25Env :=
  { regulatorEnableRet := 0, statusPresent := true, pwrkeyPresent := true,
    sleepPresent := true, hostReadyPresent := true, wakeupSeen := true,
    statusSeen := true, serdevOpenRet := 0, setParityRet := 0, configRet := 0 }

/-- Witness for `power_up_idempotent` on an already-powered device. -/
theorem power_up_idempotent_witness :
    mpwr_power_up {initState with powered := true} sampleEnv =
      ({initState with powered := true}, []) ∧
    (mpwr_work_handler (mpwr_request_power_change {initState with powered := true}
        MPWR_REQ_PWUP).1 sampleEnv 0 []).1.powered = true ∧
    (mpwr_request_power_change {initState with powered := true} MPWR_REQ_PWUP).2 ++
      (mpwr_work_handler (mpwr_request_power_change {initState with powered := true}
        MPWR_REQ_PWUP).1 sampleEnv 0 []).2 =
      [HwEv.sysfsNotify .isBusy, HwEv.sysfsNotify .isBusy, HwEv.wakeUpWaiters] := by
  refine ⟨power_up_idempotent.1 {initState with powered := true} sampleEnv rfl, ?_, ?_⟩
  · have h := (power_up_idempotent.2 {initState with powered := true}
      sampleEnv 0 [] rfl rfl).1
    rw [h]
  · exact (power_up_idempotent.2 {initState with powered := true}
      sampleEnv 0 [] rfl rfl).2.2

/-- The trace of `k` consecutive failed (`-EINVAL`) attempts starting at
attempt `i`, each followed by the 1000 ms inter-attempt delay. -/
def errTrace (f : Nat → Int) : Nat → Nat → List RetryEv
  | _, 0 => []
  | i, k + 1 => [.attempt i (f i), .sleepMs 1000] ++ errTrace f (i + 1) k

/-- A run whose first `k ≥ 1` attempts (all there are) return `-EINVAL`
retries after each with a 1000 ms delay and surfaces the error. -/
theorem retry_loop_all_error (f : Nat → Int) (k : Nat) :
    ∀ (i : Nat) (r0 : Int) (tr : List RetryEv),
    (∀ j, i ≤ j → j < i + k → f j = -(EINVAL : Int)) → 1 ≤ k →
    retry_loop f false i k r0 tr = (-(EINVAL : Int), tr ++ errTrace f i k) := by
  induction k with
  | zero => intro i r0 tr _ hk; omega
  | succ k ih =>
    intro i r0 tr h hk
    have hfi : f i = -(EINVAL : Int) := h i (Nat.le_refl i) (by omega)
    rw [retry_loop]
    rw [if_neg (by simp [hfi])]
    rw [if_pos (by rw [hfi]; decide)]
    cases k with
    | zero =>
      rw [retry_loop]
      simp [errTrace, hfi]
    | succ k' =>
      rw [ih (i + 1) (f i) _ (fun j hj1 hj2 => h j (by omega) (by omega)) (by omega)]
      simp [errTrace, hfi]

/-- A run whose first `k` attempts return `-EINVAL` and whose next
attempt times out (without timeout suppression) stops right there, with
no delay after the timeout. -/
theorem retry_loop_timeout (f : Nat → Int) (k : Nat) :
    ∀ (rem i : Nat) (r0 : Int) (tr : List RetryEv),
    k < rem →
    (∀ j, i ≤ j → j < i + k → f j = -(EINVAL : Int)) →
    f (i + k) = -(ETIMEDOUT : Int) →
    retry_loop f false i rem r0 tr =
      (-(ETIMEDOUT : Int),
       tr ++ errTrace f i k ++ [.attempt (i + k) (-(ETIMEDOUT : Int))]) := by
  induction k with
  | zero =>
    intro rem i r0 tr hrem h hto
    match rem, hrem with
    | rem' + 1, _ =>
      rw [retry_loop]
      have hfi : f i = -(ETIMEDOUT : Int) := by simpa using hto
      rw [if_pos (by rw [hfi]; exact ⟨by decide, Or.inl rfl⟩)]
      simp [errTrace, hfi]
  | succ k ih =>
    intro rem i r0 tr hrem h hto
    match rem, hrem with
    | rem' + 1, hrem =>
      rw [retry_loop]
      have hfi : f i = -(EINVAL : Int) := h i (Nat.le_refl i) (by omega)
      rw [if_neg (by simp [hfi])]
      rw [if_pos (by rw [hfi]; decide)]
      have hto' : f (i + 1 + k) = -(ETIMEDOUT : Int) := by
        have hia : i + 1 + k = i + (k + 1) := by omega
        rw [hia]
        exact hto
      rw [ih rem' (i + 1) (f i) _ (by omega)
        (fun j hj1 hj2 => h j (by omega) (by omega)) hto']
      simp [errTrace, hfi, List.append_assoc,
        show i + 1 + k = i + (k + 1) from by omega]


/-- C6: the retry wrapper returns a timeout outcome immediately (after
the errored attempts before it, each retried after a 1000 ms delay) when
timeout suppression is off; all attempts erroring surfaces the error
after exactly `tries` attempts with the 1000 ms delay between consecutive
attempts; in particular `tries = 3` with every attempt returning the
protocol error gives the protocol error after exactly 3 attempts with a
1000 ms delay between attempts 1→2 and 2→3 (and one more on the way out
of the loop); with suppression on, a timeout is retried with no delay. -/
theorem at_cmd_retry_policy :
    (∀ (f : Nat → Int) (tries : Int) (k : Nat),
      ¬(tries < 1) → k < tries.toNat →
      (∀ j, j < k → f j = -(EINVAL : Int)) → f k = -(ETIMEDOUT : Int) →
      mpwr_serdev_at_cmd_with_retry f tries false =
        (-(ETIMEDOUT : Int),
         errTrace f 0 k ++ [.attempt k (-(ETIMEDOUT : Int))])) ∧
    (∀ (f : Nat → Int) (tries : Int),
      ¬(tries < 1) → (∀ j, j < tries.toNat → f j = -(EINVAL : Int)) →
      mpwr_serdev_at_cmd_with_retry f tries false =
        (-(EINVAL : Int), errTrace f 0 tries.toNat)) ∧
    (mpwr_serdev_at_cmd_with_retry (fun _ => -(EINVAL : Int)) 3 false =
      (-(EINVAL : Int),
       [.attempt 0 (-(EINVAL : Int)), .sleepMs 1000,
        .attempt 1 (-(EINVAL : Int)), .sleepMs 1000,
        .attempt 2 (-(EINVAL : Int)), .sleepMs 1000])) ∧
    (mpwr_serdev_at_cmd_with_retry
        (fun i => if i = 0 then -(ETIMEDOUT : Int) else 0) 2 true =
      (0, [.attempt 0 (-(ETIMEDOUT : Int)), .attempt 1 0])) := by
  refine ⟨?_, ?_, ?_, ?_⟩
  · intro f tries k h1 hk hpre hto
    unfold mpwr_serdev_at_cmd_with_retry
    rw [if_neg h1]
    rw [retry_loop_timeout f k tries.toNat 0 0 [] hk
      (fun j hj1 hj2 => hpre j (by omega)) (by simpa using hto)]
    simp
  · intro f tries h1 hpre
    unfold mpwr_serdev_at_cmd_with_retry
    rw [if_neg h1]
    rw [retry_loop_all_error f tries.toNat 0 0 []
      (fun j hj1 hj2 => hpre j (by omega)) (by omega)]
    simp
  · rfl
  · rfl

/-- Witness for `at_cmd_retry_policy`: one errored attempt then a timeout
returns the timeout after two attempts; two errored attempts out of two
surface the error. -/
theorem at_cmd_retry_policy_witness :
    mpwr_serdev_at_cmd_with_retry
        (fun i => if i = 0 then -(EINVAL : Int) else -(ETIMEDOUT : Int)) 3 false =
      (-(ETIMEDOUT : Int),
       [.attempt 0 (-(EINVAL : Int)), .sleepMs 1000,
        .attempt 1 (-(ETIMEDOUT : Int))]) ∧
    mpwr_serdev_at_cmd_with_retry (fun _ => -(EINVAL : Int)) 2 false =
      (-(EINVAL : Int),
       [.attempt 0 (-(EINVAL : Int)), .sleepMs 1000,
        .attempt 1 (-(EINVAL : Int)), .sleepMs 1000]) := by
  constructor
  · have h := at_cmd_retry_policy.1
      (fun i => if i = 0 then -(EINVAL : Int) else -(ETIMEDOUT : Int)) 3 1
      (by decide) (by decide)
      (fun j hj => by
        have hj0 : j = 0 := by omega
        subst hj0
        rfl) (by rfl)
    rw [h]
    rfl
  · have h := at_cmd_retry_policy.2.1 (fun _ => -(EINVAL : Int)) 2
      (by decide) (fun j hj => rfl)
    rw [h]
    rfl


theorem latch_killswitched_powered (s : Mpwr) :
    (latch_killswitched s).1.powered = s.powered := by
  unfold latch_killswitched
  split_ifs <;> rfl

theorem latch_killswitched_sets (s : Mpwr) :
    (latch_killswitched s).1.killswitched = true := by
  unfold latch_killswitched
  split_ifs with h
  · exact h
  · rfl

theorem countKsNotify_append (a b : List HwEv) :
    countKsNotify (a ++ b) = countKsNotify a + countKsNotify b := by
  simp [countKsNotify]

theorem countKsNotify_latch (s : Mpwr) :
    countKsNotify (latch_killswitched s).2 = (if s.killswitched then 0 else 1) := by
  unfold latch_killswitched
  split_ifs <;> rfl

theorem countKsNotify_gpio_evs (env : Eg25Env) (fb : Bool) :
    countKsNotify (eg25_powerup_gpio_evs env fb) = 0 := by
  unfold eg25_powerup_gpio_evs countKsNotify
  split_ifs <;> rfl

theorem countKsNotify_forced (env : Eg25Env) :
    countKsNotify (eg25_forced_power_off env) = 0 := by
  unfold eg25_forced_power_off countKsNotify
  split_ifs <;> rfl

/-- C4: during an eg25 power-up with the fastboot mode not requested and
the regulator enabling successfully, if the wakeup signal never goes
active within the bounded wait, the kill-switch flag ends up latched true
with a notification exactly on the false-to-true transition, the variant
sequence reports failure (`-ENODEV`), the run ends with the forced-power-
removal block (every control line back to an un-driven input and the
regulator disabled), and the device stays unpowered. -/
theorem eg25_power_up_wakeup_timeout (st : Mpwr) (env : Eg25Env)
    (hp : st.powered = false) (hf : st.fastbootPowerup = false)
    (hreg : ¬(env.regulatorEnableRet < 0)) (hwk : env.wakeupSeen = false) :
    (mpwr_eg25_power_up st env).2.1 = -(ENODEV : Int) ∧
    (mpwr_power_up st env).1.powered = false ∧
    (mpwr_power_up st env).1.killswitched = true ∧
    countKsNotify (mpwr_power_up st env).2 = (if st.killswitched then 0 else 1) ∧
    (∃ pre, (mpwr_power_up st env).2 = pre ++ eg25_forced_power_off env) ∧
    HwEv.regulatorDisable ∈ (mpwr_power_up st env).2 ∧
    HwEv.gpioDirIn .enable ∈ (mpwr_power_up st env).2 ∧
    HwEv.gpioDirIn .reset ∈ (mpwr_power_up st env).2 ∧
    HwEv.gpioDirIn .dtr ∈ (mpwr_power_up st env).2 := by
  have hstep : mpwr_eg25_power_up st env =
      ((latch_killswitched {st with fastbootPowerup := false}).1, -(ENODEV : Int),
       eg25_powerup_gpio_evs env false
         ++ ((if env.statusPresent then [HwEv.gpioDirIn .status] else [])
         ++ ((latch_killswitched {st with fastbootPowerup := false}).2
         ++ eg25_forced_power_off env))) := by
    unfold mpwr_eg25_power_up
    simp [hf, hreg, hwk]
  have hpu : mpwr_power_up st env =
      ((latch_killswitched {st with fastbootPowerup := false}).1,
       eg25_powerup_gpio_evs env false
         ++ ((if env.statusPresent then [HwEv.gpioDirIn .status] else [])
         ++ ((latch_killswitched {st with fastbootPowerup := false}).2
         ++ eg25_forced_power_off env))) := by
    unfold mpwr_power_up
    rw [hstep]
    simp [hp]
    decide
  refine ⟨by rw [hstep], ?_, ?_, ?_, ?_, ?_, ?_, ?_, ?_⟩
  · rw [hpu]
    rw [latch_killswitched_powered]
    exact hp
  · rw [hpu]
    exact latch_killswitched_sets _
  · rw [hpu]
    simp only [countKsNotify_append, countKsNotify_gpio_evs, countKsNotify_forced,
      countKsNotify_latch]
    have hzero : countKsNotify
        (if env.statusPresent then [HwEv.gpioDirIn .status] else []) = 0 := by
      split_ifs <;> rfl
    rw [hzero]
    simp
  · refine ⟨eg25_powerup_gpio_evs env false
      ++ ((if env.statusPresent then [HwEv.gpioDirIn .status] else [])
      ++ (latch_killswitched {st with fastbootPowerup := false}).2), ?_⟩
    rw [hpu]
    simp [List.append_assoc]
  · rw [hpu]
    simp [eg25_forced_power_off]
  · rw [hpu]
    simp [eg25_forced_power_off]
  · rw [hpu]
    simp [eg25_forced_power_off]
  · rw [hpu]
    simp [eg25_forced_power_off]


/-- A power-up environment whose wakeup readiness condition never comes
true within the bounded wait. -/
def ksEnv : Eg25Env :=
  { regulatorEnableRet := 0, statusPresent := true, pwrkeyPresent := true,
    sleepPresent := true, hostReadyPresent := true, wakeupSeen := false,
    statusSeen := true, serdevOpenRet := 0, setParityRet := 0, configRet := 0 }

/-- Witness for `eg25_power_up_wakeup_timeout` from a cleared device. -/
theorem eg25_power_up_wakeup_timeout_witness :
    (mpwr_eg25_power_up initState ksEnv).2.1 = -(ENODEV : Int) ∧
    (mpwr_power_up initState ksEnv).1.powered = false ∧
    (mpwr_power_up initState ksEnv).1.killswitched = true ∧
    countKsNotify (mpwr_power_up initState ksEnv).2 = 1 ∧
    HwEv.regulatorDisable ∈ (mpwr_power_up initState ksEnv).2 := by
  have h := eg25_power_up_wakeup_timeout initState ksEnv rfl rfl (by decide) rfl
  refine ⟨h.1, h.2.1, h.2.2.1, ?_, h.2.2.2.2.2.1⟩
  rw [h.2.2.2.1]
  rfl

/-- C3: the line framer drops appended bytes beyond the 4096-byte
capacity without corrupting buffered data; the scan loop emits exactly
the `"\r\n"`-terminated chunks that are non-empty, once each and in
order (re-attaching terminators and the kept tail reconstructs the
buffer, so nothing is emitted twice), never emits a line containing the
terminator or an unterminated tail, keeps exactly the unterminated tail
in the buffer, and reports the framing-overflow condition exactly when a
completely full buffer holds no terminator — discarding the whole buffer
in that case. -/
theorem receive_buf_framing :
    (∀ fr inp : List Char, fr.length ≤ BUFSZ →
      mpwr_rcvbuf_append fr inp = fr ++ inp.take (BUFSZ - fr.length) ∧
      (mpwr_rcvbuf_append fr inp).length ≤ BUFSZ) ∧
    (∀ buf : List Char, buf.length ≤ BUFSZ →
      (receive_buf_loop buf).1 =
        (splitTerminated buf).1.filter (fun l => !l.isEmpty) ∧
      joinTerminated (splitTerminated buf).1 ++ (splitTerminated buf).2 = buf ∧
      (∀ s ∈ (receive_buf_loop buf).1, findCRLF s = none ∧ ¬(s = [])) ∧
      findCRLF (receive_buf_loop buf).2.1 = none ∧
      ((receive_buf_loop buf).2.2 = true ↔
        (findCRLF buf = none ∧ buf.length = BUFSZ)) ∧
      (receive_buf_loop buf).2.1 =
        (if (receive_buf_loop buf).2.2 then [] else (splitTerminated buf).2)) := by
  constructor
  · intro fr inp hfr
    unfold mpwr_rcvbuf_append
    by_cases h : 0 < BUFSZ - fr.length
    · rw [if_pos h]
      have htk : inp.take (min inp.length (BUFSZ - fr.length)) =
          inp.take (BUFSZ - fr.length) := by
        rcases Nat.le_total inp.length (BUFSZ - fr.length) with hle | hle
        · rw [Nat.min_eq_left hle, List.take_length, List.take_of_length_le hle]
        · rw [Nat.min_eq_right hle]
      rw [htk]
      refine ⟨rfl, ?_⟩
      simp only [List.length_append, List.length_take]
      omega
    · rw [if_neg h]
      have h0 : BUFSZ - fr.length = 0 := by omega
      rw [h0]
      refine ⟨by simp, hfr⟩
  · intro buf hc
    refine ⟨receive_buf_loop_lines buf, splitTerminated_join buf, ?_, ?_,
      receive_buf_loop_overflow buf hc, ?_⟩
    · intro s hs
      rw [receive_buf_loop_lines buf, List.mem_filter] at hs
      refine ⟨splitTerminated_chunks_no_crlf buf s hs.1, ?_⟩
      intro hnil
      subst hnil
      simp at hs
    · rw [receive_buf_loop_rest buf hc]
      split_ifs with h
      · rfl
      · exact splitTerminated_tail_no_crlf buf
    · rw [receive_buf_loop_rest buf hc]
      by_cases hcond : findCRLF buf = none ∧ buf.length = BUFSZ
      · rw [if_pos hcond, if_pos ((receive_buf_loop_overflow buf hc).mpr hcond)]
      · rw [if_neg hcond,
          if_neg (fun hb => hcond ((receive_buf_loop_overflow buf hc).mp hb))]


/-- Witness for `receive_buf_framing`: appending to an empty buffer keeps
all bytes, and a buffer holding one terminated line plus a partial line
emits exactly the complete line. -/
theorem receive_buf_framing_witness :
    mpwr_rcvbuf_append [] ['A', '\r', '\n'] = ['A', '\r', '\n'] ∧
    (receive_buf_loop ['A', '\r', '\n', 'X']).1 = [['A']] := by
  constructor
  · have h := (receive_buf_framing.1 [] ['A', '\r', '\n'] (by decide)).1
    rw [h]
    rfl
  · have h := (receive_buf_framing.2 ['A', '\r', '\n', 'X'] (by decide)).1
    rw [h]
    rw [splitTerminated_some
      (show findCRLF ['A', '\r', '\n', 'X'] = some 1 from by decide)]
    rw [splitTerminated_none
      (show findCRLF (List.drop (1 + 2) ['A', '\r', '\n', 'X']) = none from by decide)]
    rfl

end ModemPower
